import Mathlib

/-!
Verification of the message formatting and chunking engine in
`utils/telegram_sender.py`: the markdown renderer
(`render_html_with_basic_md`), the local heuristic splitter
(`_split_for_telegram_raw`), the Gemini-backed boundary selector
(`_split_with_gemini`), the combined splitter
(`split_text_with_gemini_or_fallback`) and the two send functions
(`send_telegram_message_html`, `send_photo_to_telegram_channel`).

Modelling conventions:
* Python strings are modelled as `List Char`; `s[:n]` is `List.take n s`,
  `s[n:]` is `List.drop n s`, `len` is `List.length`.
* `str.rstrip()` / `str.lstrip()` strip the ASCII whitespace characters
  (space, tab, newline, carriage return, vertical tab, form feed); the
  texts handled by the program contain no other whitespace.
* The float test `idx > limit * 0.4` is modelled as `2 * limit < 5 * idx`:
  the IEEE double nearest to 0.4 is slightly above 2/5, and for every
  `limit` below 2^49 the rounded product `limit * 0.4` lies in the
  half-open interval [2*limit/5, 2*limit/5 + 1), so the comparison against
  an integer `idx` agrees with the exact rational comparison.
* The external Gemini call together with `json.loads` is modelled by an
  explicit oracle value (`GeminiResult`) passed to the embedded function;
  the missing-credential guard is the boolean `hasKey`.
* The Python `while` loop of the splitter is modelled with explicit fuel
  (`splitLoopTG`); the top-level entry point passes `text.length` fuel,
  which is always sufficient because every iteration removes at least one
  character (proved below as part of C7).
* The network transmission itself (requests.post) is not modelled; the
  send functions are embedded as the pure computation of the ordered list
  of rendered payload texts they would transmit.
-/

namespace TelegramSender

/-- `MESSAGE_LIMIT = 4096` from the source. -/
def MESSAGE_LIMIT : Nat := 4096

/-- `CAPTION_LIMIT = 1024` from the source. -/
def CAPTION_LIMIT : Nat := 1024

/-- `TEXT_SPLIT_LIMIT = MESSAGE_LIMIT - 200` from the source. -/
def TEXT_SPLIT_LIMIT : Nat := MESSAGE_LIMIT - 200

/-- `CAPTION_SPLIT_LIMIT = CAPTION_LIMIT - 50` from the source. -/
def CAPTION_SPLIT_LIMIT : Nat := CAPTION_LIMIT - 50

/-- The ASCII whitespace characters stripped by Python's
`str.rstrip()` / `str.lstrip()` with no argument. -/
def isPySpace (c : Char) : Bool :=
  c = ' ' || c = '\t' || c = '\n' || c = '\r' || c = '\x0b' || c = '\x0c'

/-- Python `s.lstrip()`. -/
def lstripPy (s : List Char) : List Char := s.dropWhile isPySpace

/-- Python `s.rstrip()`. -/
def rstripPy (s : List Char) : List Char :=
  (s.reverse.dropWhile isPySpace).reverse

/-- `pat` occurs in `s` starting at index `i`. -/
def occursAtIdx (s pat : List Char) (i : Nat) : Bool :=
  (s.drop i).take pat.length == pat

/-- Python `s.rfind(pat)`: the greatest index at which `pat` occurs in `s`
(`none` models the return value `-1`).  Searches the candidate start
indices from the right and keeps the first hit. -/
def rfindIdx (s pat : List Char) : Option Nat :=
  List.find? (occursAtIdx s pat) ((List.range (s.length + 1)).reverse)

/-- One branch of the break-point cascade of `_split_for_telegram_raw`:
`idx = chunk.rfind(pat); if idx != -1 and idx > limit * 0.4:
split_idx = idx + len(pat)`. -/
def tryPat (limit : Nat) (chunk pat : List Char) : Option Nat :=
  match rfindIdx chunk pat with
  | some idx => if 2 * limit < 5 * idx then some (idx + pat.length) else none
  | none => none

/-- The break-point cascade of `_split_for_telegram_raw` applied to one
window `chunk = remaining[:limit]`: double newline, then single newline,
then each of the sentence enders `". "`, `"! "`, `"? "` in order, then a
plain space, and otherwise a hard cut exactly at `limit`. -/
def splitChunkIdx (limit : Nat) (chunk : List Char) : Nat :=
  match tryPat limit chunk ('\n' :: '\n' :: []) with
  | some k => k
  | none =>
  match tryPat limit chunk ('\n' :: []) with
  | some k => k
  | none =>
  match tryPat limit chunk ('.' :: ' ' :: []) with
  | some k => k
  | none =>
  match tryPat limit chunk ('!' :: ' ' :: []) with
  | some k => k
  | none =>
  match tryPat limit chunk ('?' :: ' ' :: []) with
  | some k => k
  | none =>
  match tryPat limit chunk (' ' :: []) with
  | some k => k
  | none => limit

/-- The `while remaining:` loop of `_split_for_telegram_raw`, with explicit
fuel.  With `0 < limit` and fuel at least `remaining.length` the fuel
never runs out (every iteration drops at least one character), so the
fuel-exhaustion branch returning `[]` is unreachable from the entry
point below. -/
def splitLoopTG (limit : Nat) : Nat → List Char → List (List Char)
  | 0, _ => []
  | fuel + 1, remaining =>
    if remaining = [] then []
    else if remaining.length ≤ limit then [remaining]
    else
      let si := splitChunkIdx limit (remaining.take limit)
      rstripPy (remaining.take si) ::
        splitLoopTG limit fuel (lstripPy (remaining.drop si))

/-- `_split_for_telegram_raw(text, limit)`: returns `[text]` when the text
already fits, and otherwise runs the loop and applies the final defensive
truncation `[p[:limit] for p in parts]`.  (The `text is None` and
`text or ""` guards of the source are identities on actual strings and
are not modelled.) -/
def split_for_telegram_raw (text : List Char) (limit : Nat) : List (List Char) :=
  if text.length ≤ limit then [text]
  else (splitLoopTG limit text.length text).map (fun p => p.take limit)

example : split_for_telegram_raw ("ab".toList) 5 = [("ab".toList)] := by decide

example : split_for_telegram_raw ("ab".toList) 1 =
    [("a".toList), ("b".toList)] := by decide

example : split_for_telegram_raw ("aaaaa. b! XYZ".toList) 10 =
    [("aaaaa.".toList), ("b! XYZ".toList)] := by decide

example : split_for_telegram_raw ("ab cd ef gh".toList) 6 =
    [("ab cd".toList), ("ef gh".toList)] := by decide

/-! ## Markdown renderer (`render_html_with_basic_md`)

The source scans the text with `re.finditer` over the alternation
`link | bold | italic-star | italic-underscore`, escaping the gaps with
`html.escape` (whose default `quote=True` also escapes `"` and the
apostrophe).  The regex engine's behaviour on this particular pattern is
deterministic and is embedded directly: at each position the four
alternatives are tried in order; lazy `(.+?)` bodies take the shortest
closing position; the `(?<!…)`/`(?!…)` lookarounds inspect the
neighbouring characters of the original text. -/

/-- `html.escape(c)` for a single character (`quote=True`, the default
used throughout the source). -/
def escChar (c : Char) : List Char :=
  if c = '&' then ("&amp;".toList)
  else if c = '<' then ("&lt;".toList)
  else if c = '>' then ("&gt;".toList)
  else if c = '"' then ("&quot;".toList)
  else if c = '\x27' then ("&#x27;".toList)
  else [c]

/-- `html.escape(s)` with the default `quote=True`. -/
def pyHtmlEscape (s : List Char) : List Char := (s.map escChar).flatten

/-- A character allowed inside the URL body by the class `[^)\s]`. -/
def isHrefChar (c : Char) : Bool := !(c = ')') && !(isPySpace c)

/-- The literal `https?://` scheme part of the link regex: `"http"`, an
optional greedy `'s'`, then `"://"`.  Returns the matched scheme text and
the rest. -/
def matchScheme : List Char → Option (List Char × List Char)
  | 'h' :: 't' :: 't' :: 'p' :: rest =>
    match rest with
    | 's' :: ':' :: '/' :: '/' :: v => some (("https://".toList), v)
    | ':' :: '/' :: '/' :: v => some (("http://".toList), v)
    | _ => none
  | _ => none

/-- The alternative `\[([^\]]+)\]\((https?://[^)\s]+)\)` anchored at the
head of `s`.  On success returns the rendered
`<a href="escaped-url">escaped-label</a>` and the unconsumed suffix. -/
def matchLink (s : List Char) : Option (List Char × List Char) :=
  match s with
  | '[' :: t =>
    let label := t.takeWhile (fun c => !(c = ']'))
    if label = [] then none else
    match t.dropWhile (fun c => !(c = ']')) with
    | ']' :: '(' :: u =>
      match matchScheme u with
      | some sv =>
        let body := sv.2.takeWhile isHrefChar
        if body = [] then none else
        match sv.2.dropWhile isHrefChar with
        | ')' :: w =>
          some (("<a href=\"".toList) ++ pyHtmlEscape (sv.1 ++ body) ++
                ("\">".toList) ++ pyHtmlEscape label ++ ("</a>".toList), w)
        | _ => none
      | none => none
    | _ => none
  | _ => none

/-- Lazy search for the closing bold delimiter: the least `k ≥ 1` such
that the delimiter `d` occurs in `t` at index `k` (the inner text
`(.+?)` is `t.take k`). -/
def findBoldClose (d t : List Char) : Option Nat :=
  List.find? (fun k => (t.drop k).take d.length == d) (List.range' 1 t.length)

/-- The alternative `(\*\*|__)(.+?)\4` anchored at the head of `s`
(`\4` is a backreference to the opening delimiter). -/
def matchBold (s : List Char) : Option (List Char × List Char) :=
  match s with
  | '*' :: '*' :: t =>
    match findBoldClose ('*' :: '*' :: []) t with
    | some k => some (("<b>".toList) ++ pyHtmlEscape (t.take k) ++
                      ("</b>".toList), t.drop (k + 2))
    | none => none
  | '_' :: '_' :: t =>
    match findBoldClose ('_' :: '_' :: []) t with
    | some k => some (("<b>".toList) ++ pyHtmlEscape (t.take k) ++
                      ("</b>".toList), t.drop (k + 2))
    | none => none
  | _ => none

/-- Lazy search for the closing italic delimiter `(?<!d)d(?!d)`: the
least `k ≥ 1` with `t[k] = d`, `t[k-1] ≠ d` (lookbehind) and
`t[k+1] ≠ d` (lookahead, satisfied at end of text). -/
def findItalicClose (d : Char) (t : List Char) : Option Nat :=
  List.find?
    (fun k => t.get? k == some d && !(t.get? (k - 1) == some d) &&
              !(t.get? (k + 1) == some d))
    (List.range' 1 t.length)

/-- The italic alternative `(?<!d)d(?!d)(.+?)(?<!d)d(?!d)` anchored at the
head of `s`, where `d` is `'*'` or `'_'` and `prev` is the character of
the original text just before `s` (the opening lookbehind). -/
def matchItalic (d : Char) (prev : Option Char) (s : List Char) :
    Option (List Char × List Char) :=
  if prev == some d then none else
  match s with
  | c :: t =>
    if c = d then
      match t with
      | c2 :: _ =>
        if c2 = d then none else
        match findItalicClose d t with
        | some k => some (("<i>".toList) ++ pyHtmlEscape (t.take k) ++
                          ("</i>".toList), t.drop (k + 1))
        | none => none
      | [] => none
    else none
  | [] => none

/-- The full alternation of `token_re`, with the source's priority order:
link, bold, `*italic*`, `_italic_`. -/
def matchToken (prev : Option Char) (s : List Char) :
    Option (List Char × List Char) :=
  match matchLink s with
  | some r => some r
  | none =>
  match matchBold s with
  | some r => some r
  | none =>
  match matchItalic '*' prev s with
  | some r => some r
  | none => matchItalic '_' prev s

/-- The `re.finditer` scan of `render_html_with_basic_md`: at each
position emit either the rendered token or the escaped gap character, and
continue after it.  The fuel starts at the text length; every step
consumes at least one character, so the fuel-exhaustion branch (which
escapes the remainder, and in fact is only ever reached with an empty
remainder) never changes the result. -/
def renderLoop : Nat → Option Char → List Char → List Char
  | 0, _, rest => pyHtmlEscape rest
  | fuel + 1, prev, s =>
    match s with
    | [] => []
    | c :: t =>
      match matchToken prev (c :: t) with
      | some hr =>
        hr.1 ++ renderLoop fuel (s.get? (s.length - hr.2.length - 1)) hr.2
      | none => escChar c ++ renderLoop fuel (some c) t

/-- `render_html_with_basic_md(text)`. -/
def render_html_with_basic_md (text : List Char) : List Char :=
  if text = [] then [] else renderLoop text.length none text

example : render_html_with_basic_md ("**hi**".toList) = ("<b>hi</b>".toList) := by
  decide

example : render_html_with_basic_md ("*hi*".toList) = ("<i>hi</i>".toList) := by
  decide

example : render_html_with_basic_md ("[go](https://x.com)".toList) =
    ("<a href=\"https://x.com\">go</a>".toList) := by decide

example : render_html_with_basic_md ("A < B".toList) = ("A &lt; B".toList) := by
  decide

example : render_html_with_basic_md ("*hi".toList) = ("*hi".toList) := by decide

example : render_html_with_basic_md ("a __b__ c".toList) =
    ("a <b>b</b> c".toList) := by decide

example : render_html_with_basic_md ("_x_".toList) = ("<i>x</i>".toList) := by
  decide

example : render_html_with_basic_md ("***hi***".toList) =
    ("<b>*hi</b>*".toList) := by decide

/-! ## Boundary selector (`_split_with_gemini`) and combined splitter -/

/-- A Python value as returned by `json.loads`, as far as the selector's
`isinstance` checks can distinguish it. -/
inductive PyJson where
  | str : List Char → PyJson
  | arr : List PyJson → PyJson
  | other : PyJson

/-- The outcome of `_call_gemini` followed by `json.loads`, supplied as an
oracle: the call returned nothing (or errored), the response was not valid
JSON (`json.JSONDecodeError`), or it parsed to a value. -/
inductive GeminiResult where
  | noResponse : GeminiResult
  | badJson : GeminiResult
  | parsed : PyJson → GeminiResult

/-- `isinstance(c, str)` extraction for one element. -/
def asStr : PyJson → Option (List Char)
  | PyJson.str s => some s
  | _ => none

/-- Extraction of every element of a parsed list as a string. -/
def asStrList : List PyJson → Option (List (List Char))
  | [] => some []
  | v :: rest =>
    match asStr v with
    | some s =>
      match asStrList rest with
      | some l => some (s :: l)
      | none => none
    | none => none

/-- The check `isinstance(chunks, list) and all(isinstance(c, str) for c
in chunks)` together with the extraction of the strings. -/
def asStrings : PyJson → Option (List (List Char))
  | PyJson.arr l => asStrList l
  | _ => none

/-- `_split_with_gemini(text, limit)`.  `hasKey` models the
`GEMINI_API_KEY` guard and `resp` the network call plus JSON parse.  On a
parsed response the three validations of the source run in order: list of
strings, concatenation equals the input, every element within the limit.
Every failure path returns `none` (the Python function catches every
exception and returns `None`; no path raises). -/
def split_with_gemini (hasKey : Bool) (resp : GeminiResult)
    (text : List Char) (limit : Nat) : Option (List (List Char)) :=
  if hasKey = false then none
  else if text.length ≤ limit then some [text]
  else
    match resp with
    | GeminiResult.noResponse => none
    | GeminiResult.badJson => none
    | GeminiResult.parsed v =>
      match asStrings v with
      | none => none
      | some chunks =>
        if chunks.flatten ≠ text then none
        else if chunks.any (fun c => limit < c.length) then none
        else some chunks

/-- `split_text_with_gemini_or_fallback(text, limit)`. -/
def split_text_with_gemini_or_fallback (hasKey : Bool) (resp : GeminiResult)
    (text : List Char) (limit : Nat) : List (List Char) :=
  if text.length ≤ limit then [text]
  else
    match split_with_gemini hasKey resp text limit with
    | some chunks => chunks
    | none => split_for_telegram_raw text limit

example : split_text_with_gemini_or_fallback false GeminiResult.noResponse
    ("a b".toList) 2 = [("a".toList), ("b".toList)] := by decide

example : split_text_with_gemini_or_fallback true
    (GeminiResult.parsed (PyJson.arr [PyJson.str ("a ".toList),
      PyJson.str ("b".toList)])) ("a b".toList) 2 =
    [("a ".toList), ("b".toList)] := by decide

/-! ## Send functions

The network transport and the `TELEGRAM_BOT_TOKEN` guard are outside the
formatting engine; the two send functions are embedded as the pure
computation of the payload texts they transmit, in order. -/

/-- Python truthiness of the optional `post_type` string: `None` and the
empty string are falsy. -/
def pyTruthy : Option (List Char) → Bool
  | none => false
  | some s => !(s = [])

/-- The category tag `f"[<b>{html.escape(post_type)}</b>]\n\n"`. -/
def typeTag (pt : List Char) : List Char :=
  ("[<b>".toList) ++ pyHtmlEscape pt ++ ("</b>]\n\n".toList)

/-- `send_telegram_message_html`: splits at `TEXT_SPLIT_LIMIT`, renders
each chunk, and prepends the type tag exactly when `post_type` is truthy
and the 1-based chunk index `i` equals 1 (`enumerate(raw_chunks, 1)` is
modelled with 0-based `List.enum`, so the source's `i == 1` is
`ic.1 + 1 == 1`).  Returns the ordered list of message texts sent. -/
def send_telegram_message_html (hasKey : Bool) (resp : GeminiResult)
    (translated_text : List Char) (post_type : Option (List Char)) :
    List (List Char) :=
  let raw_chunks :=
    split_text_with_gemini_or_fallback hasKey resp translated_text TEXT_SPLIT_LIMIT
  raw_chunks.enum.map (fun ic =>
    let safe := render_html_with_basic_md ic.2
    if pyTruthy post_type && (ic.1 + 1 == 1) then
      typeTag (post_type.getD []) ++ safe
    else safe)

/-- `send_photo_to_telegram_channel`: splits the caption at
`CAPTION_SPLIT_LIMIT`, takes the first chunk as the caption (with the
defensive hard truncation at `CAPTION_LIMIT`), renders it, prepends the
type tag when `post_type` is truthy, and re-sends every remaining chunk
through `send_telegram_message_html` with `post_type=None`.  Returns the
caption text and the ordered list of follow-up message texts. -/
def send_photo_to_telegram_channel (hasKey : Bool) (resp : GeminiResult)
    (translated_caption : List Char) (post_type : Option (List Char)) :
    List Char × List (List Char) :=
  let caption_chunks :=
    split_text_with_gemini_or_fallback hasKey resp translated_caption
      CAPTION_SPLIT_LIMIT
  let head_raw := caption_chunks.headD []
  let tail_chunks := caption_chunks.tail
  let head_raw2 :=
    if CAPTION_LIMIT < head_raw.length then head_raw.take CAPTION_LIMIT
    else head_raw
  let caption_head_html := render_html_with_basic_md head_raw2
  let caption_html :=
    if pyTruthy post_type then
      typeTag (post_type.getD []) ++ caption_head_html
    else caption_head_html
  (caption_html,
   (tail_chunks.map
     (fun c => send_telegram_message_html hasKey resp c none)).flatten)

/-! ## Lemmas about the heuristic splitter -/

/-- The non-whitespace content of a string, used to state the
whitespace-normalised round trip. -/
def notSpace (c : Char) : Bool := !(isPySpace c)

lemma occursAtIdx_bound {s pat : List Char} {i : Nat} (hp : 0 < pat.length)
    (h : occursAtIdx s pat i = true) : i + pat.length ≤ s.length := by
  have he : (s.drop i).take pat.length = pat := by
    simpa [occursAtIdx, beq_iff_eq] using h
  have hl := congrArg List.length he
  rw [List.length_take, List.length_drop] at hl
  have := inf_eq_left.mp hl
  omega

lemma rfindIdx_some {s pat : List Char} {i : Nat}
    (h : rfindIdx s pat = some i) : occursAtIdx s pat i = true :=
  List.find?_some h

lemma tryPat_some_bounds {limit : Nat} {chunk pat : List Char} {k : Nat}
    (hp : 0 < pat.length) (h : tryPat limit chunk pat = some k) :
    1 ≤ k ∧ k ≤ chunk.length := by
  cases hf : rfindIdx chunk pat with
  | none => simp only [tryPat, hf] at h; cases h
  | some idx =>
    simp only [tryPat, hf] at h
    by_cases hc : 2 * limit < 5 * idx
    · rw [if_pos hc] at h
      injection h with h
      have := occursAtIdx_bound hp (rfindIdx_some hf)
      omega
    · rw [if_neg hc] at h; cases h

lemma splitChunkIdx_bounds {limit : Nat} {chunk : List Char}
    (hL : 0 < limit) (hc : chunk.length ≤ limit) :
    1 ≤ splitChunkIdx limit chunk ∧ splitChunkIdx limit chunk ≤ limit := by
  have H : ∀ (pat : List Char) (k : Nat), 0 < pat.length →
      tryPat limit chunk pat = some k → 1 ≤ k ∧ k ≤ limit := by
    intro pat k hp h
    have hb := tryPat_some_bounds hp h
    exact ⟨hb.1, le_trans hb.2 hc⟩
  unfold splitChunkIdx
  cases h1 : tryPat limit chunk ('\n' :: '\n' :: []) with
  | some k => exact H _ _ (by decide) h1
  | none =>
  cases h2 : tryPat limit chunk ('\n' :: []) with
  | some k => exact H _ _ (by decide) h2
  | none =>
  cases h3 : tryPat limit chunk ('.' :: ' ' :: []) with
  | some k => exact H _ _ (by decide) h3
  | none =>
  cases h4 : tryPat limit chunk ('!' :: ' ' :: []) with
  | some k => exact H _ _ (by decide) h4
  | none =>
  cases h5 : tryPat limit chunk ('?' :: ' ' :: []) with
  | some k => exact H _ _ (by decide) h5
  | none =>
  cases h6 : tryPat limit chunk (' ' :: []) with
  | some k => exact H _ _ (by decide) h6
  | none => exact ⟨hL, le_refl limit⟩

lemma splitChunkIdx_pos {limit : Nat} {chunk : List Char} (hL : 0 < limit) :
    1 ≤ splitChunkIdx limit chunk := by
  have H : ∀ (pat : List Char) (k : Nat), 0 < pat.length →
      tryPat limit chunk pat = some k → 1 ≤ k :=
    fun pat k hp h => (tryPat_some_bounds hp h).1
  unfold splitChunkIdx
  cases h1 : tryPat limit chunk ('\n' :: '\n' :: []) with
  | some k => exact H _ _ (by decide) h1
  | none =>
  cases h2 : tryPat limit chunk ('\n' :: []) with
  | some k => exact H _ _ (by decide) h2
  | none =>
  cases h3 : tryPat limit chunk ('.' :: ' ' :: []) with
  | some k => exact H _ _ (by decide) h3
  | none =>
  cases h4 : tryPat limit chunk ('!' :: ' ' :: []) with
  | some k => exact H _ _ (by decide) h4
  | none =>
  cases h5 : tryPat limit chunk ('?' :: ' ' :: []) with
  | some k => exact H _ _ (by decide) h5
  | none =>
  cases h6 : tryPat limit chunk (' ' :: []) with
  | some k => exact H _ _ (by decide) h6
  | none => exact hL

lemma lstripPy_length_le (s : List Char) : (lstripPy s).length ≤ s.length :=
  (List.dropWhile_sublist _).length_le

lemma rstripPy_length_le (s : List Char) : (rstripPy s).length ≤ s.length := by
  have h := (List.dropWhile_sublist (l := s.reverse) isPySpace).length_le
  simpa [rstripPy] using h

lemma filter_notSpace_dropWhile (s : List Char) :
    (s.dropWhile isPySpace).filter notSpace = s.filter notSpace := by
  conv_rhs => rw [← List.takeWhile_append_dropWhile (p := isPySpace) (l := s)]
  rw [List.filter_append]
  have h : (s.takeWhile isPySpace).filter notSpace = [] := by
    rw [List.filter_eq_nil_iff]
    intro a ha
    have := List.mem_takeWhile_imp ha
    simp [notSpace, this]
  rw [h, List.nil_append]

lemma filter_notSpace_lstripPy (s : List Char) :
    (lstripPy s).filter notSpace = s.filter notSpace :=
  filter_notSpace_dropWhile s

lemma filter_notSpace_rstripPy (s : List Char) :
    (rstripPy s).filter notSpace = s.filter notSpace := by
  unfold rstripPy
  rw [List.filter_reverse, filter_notSpace_dropWhile, List.filter_reverse,
    List.reverse_reverse]

lemma splitLoopTG_succ_small {limit : Nat} (f : Nat) {r : List Char}
    (h0 : r ≠ []) (h1 : r.length ≤ limit) :
    splitLoopTG limit (f + 1) r = [r] := by
  simp only [splitLoopTG, if_neg h0, if_pos h1]

lemma splitLoopTG_succ_big {limit : Nat} (f : Nat) {r : List Char}
    (h1 : limit < r.length) :
    splitLoopTG limit (f + 1) r =
      rstripPy (r.take (splitChunkIdx limit (r.take limit))) ::
        splitLoopTG limit f
          (lstripPy (r.drop (splitChunkIdx limit (r.take limit)))) := by
  have h0 : r ≠ [] := by
    intro h
    subst h
    simp at h1
  simp only [splitLoopTG, if_neg h0, if_neg (by omega : ¬ r.length ≤ limit)]

lemma take_limit_length_le {limit : Nat} (r : List Char) :
    (r.take limit).length ≤ limit := by
  rw [List.length_take]
  exact min_le_left _ _

lemma lstrip_drop_length {limit : Nat} (hL : 0 < limit) {r : List Char}
    (h1 : limit < r.length) :
    (lstripPy (r.drop (splitChunkIdx limit (r.take limit)))).length <
      r.length := by
  have hb := splitChunkIdx_bounds hL (@take_limit_length_le limit r)
  have h2 := lstripPy_length_le (r.drop (splitChunkIdx limit (r.take limit)))
  rw [List.length_drop] at h2
  omega

lemma splitLoopTG_all_le {limit : Nat} (hL : 0 < limit) :
    ∀ (fuel : Nat) (r : List Char), r.length ≤ fuel →
      ∀ p ∈ splitLoopTG limit fuel r, p.length ≤ limit := by
  intro fuel
  induction fuel with
  | zero => intro r hr p hp; simp [splitLoopTG] at hp
  | succ f ih =>
    intro r hr p hp
    by_cases h0 : r = []
    · subst h0; simp [splitLoopTG] at hp
    · by_cases h1 : r.length ≤ limit
      · rw [splitLoopTG_succ_small f h0 h1] at hp
        simp at hp
        exact hp ▸ h1
      · rw [splitLoopTG_succ_big f (by omega)] at hp
        rcases List.mem_cons.mp hp with hph | hpt
        · subst hph
          have hb := splitChunkIdx_bounds hL
            (@take_limit_length_le limit r)
          have h2 := rstripPy_length_le
            (r.take (splitChunkIdx limit (r.take limit)))
          rw [List.length_take] at h2
          have h3 : (r.take limit).length ≤ limit :=
            @take_limit_length_le limit r
          calc (rstripPy (r.take (splitChunkIdx limit (r.take limit)))).length
              ≤ _ := h2
            _ ≤ limit := by
              have := min_le_left (splitChunkIdx limit (r.take limit)) r.length
              omega
        · have hlt : limit < r.length := by omega
          have hlen := lstrip_drop_length hL hlt
          exact ih _ (by omega) p hpt

lemma splitLoopTG_filter {limit : Nat} (hL : 0 < limit) :
    ∀ (fuel : Nat) (r : List Char), r.length ≤ fuel →
      ((splitLoopTG limit fuel r).flatten).filter notSpace =
        r.filter notSpace := by
  intro fuel
  induction fuel with
  | zero =>
    intro r hr
    have : r = [] := List.eq_nil_of_length_eq_zero (by omega)
    subst this
    simp [splitLoopTG]
  | succ f ih =>
    intro r hr
    by_cases h0 : r = []
    · subst h0; simp [splitLoopTG]
    · by_cases h1 : r.length ≤ limit
      · rw [splitLoopTG_succ_small f h0 h1]
        simp
      · have hlt : limit < r.length := by omega
        have hlen := lstrip_drop_length hL hlt
        rw [splitLoopTG_succ_big f hlt]
        rw [List.flatten_cons, List.filter_append, filter_notSpace_rstripPy,
          ih _ (by omega), filter_notSpace_lstripPy, ← List.filter_append,
          List.take_append_drop]

lemma splitLoopTG_fuel_inv {limit : Nat} (hL : 0 < limit) :
    ∀ (f g : Nat) (r : List Char), r.length ≤ f → r.length ≤ g →
      splitLoopTG limit f r = splitLoopTG limit g r := by
  intro f
  induction f with
  | zero =>
    intro g r hf hg
    have : r = [] := List.eq_nil_of_length_eq_zero (by omega)
    subst this
    cases g with
    | zero => rfl
    | succ g' => simp [splitLoopTG]
  | succ f ih =>
    intro g r hf hg
    cases g with
    | zero =>
      have : r = [] := List.eq_nil_of_length_eq_zero (by omega)
      subst this
      simp [splitLoopTG]
    | succ g' =>
      by_cases h0 : r = []
      · subst h0; simp [splitLoopTG]
      · by_cases h1 : r.length ≤ limit
        · rw [splitLoopTG_succ_small f h0 h1, splitLoopTG_succ_small g' h0 h1]
        · have hbig : limit < r.length := by omega
          rw [splitLoopTG_succ_big f hbig, splitLoopTG_succ_big g' hbig]
          congr 1
          have hlt := lstrip_drop_length hL hbig
          exact ih g' _ (by omega) (by omega)

lemma splitLoopTG_ne_nil {limit f : Nat} {r : List Char} (h0 : r ≠ []) :
    splitLoopTG limit (f + 1) r ≠ [] := by
  by_cases h1 : r.length ≤ limit
  · rw [splitLoopTG_succ_small f h0 h1]; simp
  · rw [splitLoopTG_succ_big f (by omega)]; simp

lemma sofr_all_le (text : List Char) (L : Nat) :
    ∀ p ∈ split_for_telegram_raw text L, p.length ≤ L := by
  intro p hp
  unfold split_for_telegram_raw at hp
  by_cases h : text.length ≤ L
  · rw [if_pos h] at hp
    simp at hp
    exact hp ▸ h
  · rw [if_neg h] at hp
    rcases List.mem_map.mp hp with ⟨q, _, rfl⟩
    rw [List.length_take]
    exact min_le_left _ _

lemma sofr_ne_nil (text : List Char) (L : Nat) :
    split_for_telegram_raw text L ≠ [] := by
  unfold split_for_telegram_raw
  by_cases h : text.length ≤ L
  · simp [h]
  · rw [if_neg h]
    have h0 : text ≠ [] := by
      intro he
      subst he
      simp at h
    have hpos : 0 < text.length := List.length_pos.mpr h0
    obtain ⟨n, hn⟩ : ∃ n, text.length = n + 1 := ⟨text.length - 1, by omega⟩
    rw [hn]
    intro hmap
    exact splitLoopTG_ne_nil h0 (List.map_eq_nil_iff.mp hmap)

lemma sofr_filter {L : Nat} (hL : 0 < L) (text : List Char) :
    ((split_for_telegram_raw text L).flatten).filter notSpace =
      text.filter notSpace := by
  unfold split_for_telegram_raw
  by_cases h : text.length ≤ L
  · simp [h]
  · rw [if_neg h]
    have hmap : (splitLoopTG L text.length text).map (fun p => p.take L) =
        splitLoopTG L text.length text := by
      have hcg : ∀ p ∈ splitLoopTG L text.length text, p.take L = id p :=
        fun p hp => List.take_of_length_le
          (splitLoopTG_all_le hL text.length text le_rfl p hp)
      rw [List.map_congr_left hcg, List.map_id]
    rw [hmap]
    exact splitLoopTG_filter hL text.length text le_rfl

/-! ## Lemmas about the selector and the combined splitter -/

lemma swg_some {hasKey : Bool} {resp : GeminiResult} {text : List Char}
    {L : Nat} {chunks : List (List Char)}
    (h : split_with_gemini hasKey resp text L = some chunks) :
    chunks.flatten = text ∧ ∀ c ∈ chunks, c.length ≤ L := by
  unfold split_with_gemini at h
  by_cases hk : hasKey = false
  · rw [if_pos hk] at h; cases h
  · rw [if_neg hk] at h
    by_cases hlen : text.length ≤ L
    · rw [if_pos hlen] at h
      injection h with h
      subst h
      refine ⟨by simp, ?_⟩
      intro c hc
      simp at hc
      exact hc ▸ hlen
    · rw [if_neg hlen] at h
      cases resp with
      | noResponse => cases h
      | badJson => cases h
      | parsed v =>
        cases hs : asStrings v with
        | none => simp only [hs] at h; cases h
        | some cs =>
          simp only [hs] at h
          by_cases hj : cs.flatten ≠ text
          · rw [if_pos hj] at h; cases h
          · rw [if_neg hj] at h
            by_cases ha : cs.any (fun c => decide (L < c.length)) = true
            · rw [if_pos ha] at h; cases h
            · rw [if_neg ha] at h
              injection h with h
              subst h
              refine ⟨not_not.mp hj, ?_⟩
              intro c hc
              by_contra hlt
              exact ha (List.any_eq_true.mpr
                ⟨c, hc, decide_eq_true_eq.mpr (by omega)⟩)

lemma sofb_all_le {hasKey : Bool} {resp : GeminiResult} {text : List Char}
    {L : Nat} :
    ∀ c ∈ split_text_with_gemini_or_fallback hasKey resp text L,
      c.length ≤ L := by
  intro c hc
  unfold split_text_with_gemini_or_fallback at hc
  by_cases h : text.length ≤ L
  · rw [if_pos h] at hc
    simp at hc
    exact hc ▸ h
  · rw [if_neg h] at hc
    cases hg : split_with_gemini hasKey resp text L with
    | some chunks =>
      rw [hg] at hc
      exact (swg_some hg).2 c hc
    | none =>
      rw [hg] at hc
      exact sofr_all_le text L c hc

lemma sofb_ne_nil {hasKey : Bool} {resp : GeminiResult} {text : List Char}
    {L : Nat} :
    split_text_with_gemini_or_fallback hasKey resp text L ≠ [] := by
  unfold split_text_with_gemini_or_fallback
  by_cases h : text.length ≤ L
  · simp [h]
  · rw [if_neg h]
    cases hg : split_with_gemini hasKey resp text L with
    | some chunks =>
      intro hnil
      subst hnil
      have := (swg_some hg).1
      simp at this
      subst this
      simp at h
    | none => exact sofr_ne_nil text L

lemma sofb_flatten_filter {hasKey : Bool} {resp : GeminiResult}
    {text : List Char} {L : Nat} (hL : 0 < L) :
    ((split_text_with_gemini_or_fallback hasKey resp text L).flatten).filter
        notSpace = text.filter notSpace := by
  unfold split_text_with_gemini_or_fallback
  by_cases h : text.length ≤ L
  · simp [h]
  · rw [if_neg h]
    cases hg : split_with_gemini hasKey resp text L with
    | some chunks => rw [(swg_some hg).1]
    | none => exact sofr_filter hL text

/-! ## Claims C1, C5, C7: the heuristic splitter -/

/-- C1: for every string `text` and limit `L > 0`, every element of the
list returned by `_split_for_telegram_raw(text, L)` has length at most
`L`, regardless of which break-point branch produced it (the final
defensive truncation `[p[:limit] for p in parts]` enforces the bound for
every loop-produced part, and the single-segment short-text return
satisfies it outright). -/
theorem C1_split_raw_segments_bounded (text : List Char) (L : Nat)
    (hL : 0 < L) :
    (split_for_telegram_raw text L).all (fun p => decide (p.length ≤ L)) =
      true := by
  rw [List.all_eq_true]
  intro p hp
  exact decide_eq_true_eq.mpr (sofr_all_le text L p hp)

theorem C1_split_raw_segments_bounded_witness :
    (split_for_telegram_raw ("ab cd".toList) 2).all
      (fun p => decide (p.length ≤ 2)) = true :=
  C1_split_raw_segments_bounded ("ab cd".toList) 2 (by decide)

/-- C5: for every string `text` and limit `L > 0`, the sequence of
non-whitespace characters of the concatenation of the segments of
`_split_for_telegram_raw(text, L)` equals the sequence of non-whitespace
characters of `text`: splitting only drops whitespace at the cut points
(`rstrip` on the emitted part, `lstrip` on the remainder), so the content
round-trips up to whitespace normalisation. -/
theorem C5_split_raw_content_roundtrip (text : List Char) (L : Nat)
    (hL : 0 < L) :
    ((split_for_telegram_raw text L).flatten).filter notSpace =
      text.filter notSpace :=
  sofr_filter hL text

theorem C5_split_raw_content_roundtrip_witness :
    ((split_for_telegram_raw ("ab cd ef".toList) 3).flatten).filter
        notSpace = ("ab cd ef".toList).filter notSpace :=
  C5_split_raw_content_roundtrip ("ab cd ef".toList) 3 (by decide)

/-- C7: for every limit `L > 0` the heuristic splitter terminates and
returns a list.  Formally: (1) if the text already fits it returns
`[text]` without entering the loop; (2) the loop's result is independent
of the fuel once the fuel covers the remaining length, i.e. the
recursion always bottoms out within the fuel supplied by the entry
point; (3) the chosen split index of every iteration is at least 1, and
(4) consequently the remaining text strictly shrinks on every loop
iteration. -/
theorem C7_split_raw_terminates (text r chunk : List Char)
    (L fuel fuel' : Nat) (hL : 0 < L) :
    (text.length ≤ L → split_for_telegram_raw text L = [text])
  ∧ (r.length ≤ fuel → r.length ≤ fuel' →
      splitLoopTG L fuel r = splitLoopTG L fuel' r)
  ∧ 1 ≤ splitChunkIdx L chunk
  ∧ (L < r.length →
      (lstripPy (r.drop (splitChunkIdx L (r.take L)))).length < r.length) := by
  refine ⟨?_, ?_, ?_, ?_⟩
  · intro h
    unfold split_for_telegram_raw
    rw [if_pos h]
  · intro hf hg
    exact splitLoopTG_fuel_inv hL fuel fuel' r hf hg
  · exact splitChunkIdx_pos hL
  · intro hlt
    exact lstrip_drop_length hL hlt

theorem C7_split_raw_terminates_witness :
    split_for_telegram_raw ("a".toList) 1 = ["a".toList]
  ∧ splitLoopTG 1 2 ("xy".toList) = splitLoopTG 1 5 ("xy".toList)
  ∧ 1 ≤ splitChunkIdx 1 ("q".toList)
  ∧ (lstripPy (("xy".toList).drop
        (splitChunkIdx 1 (("xy".toList).take 1)))).length <
      ("xy".toList).length := by
  have h := C7_split_raw_terminates ("a".toList) ("xy".toList)
    ("q".toList) 1 2 5 (by decide)
  exact ⟨h.1 (by decide), h.2.1 (by decide) (by decide), h.2.2.1,
    h.2.2.2 (by decide)⟩

/-! ## Claims C2, C3: the boundary selector and the combined splitter -/

/-- C2: for every string `text` and limit `L ≥ 1`,
`split_text_with_gemini_or_fallback(text, L)` returns a non-empty ordered
list of strings in which every element has length at most `L`, whether
the selector returns a list, returns `None` after a failed validation, or
is unavailable for lack of a credential (the statement quantifies over
every oracle outcome `resp` and both values of `hasKey`). -/
theorem C2_split_or_fallback_bounded (hasKey : Bool) (resp : GeminiResult)
    (text : List Char) (L : Nat) (hL : 1 ≤ L) :
    split_text_with_gemini_or_fallback hasKey resp text L ≠ []
  ∧ (split_text_with_gemini_or_fallback hasKey resp text L).all
      (fun c => decide (c.length ≤ L)) = true := by
  refine ⟨sofb_ne_nil, ?_⟩
  rw [List.all_eq_true]
  intro c hc
  exact decide_eq_true_eq.mpr (sofb_all_le c hc)

theorem C2_split_or_fallback_bounded_witness :
    split_text_with_gemini_or_fallback false GeminiResult.noResponse
      ("ab".toList) 1 ≠ []
  ∧ (split_text_with_gemini_or_fallback false GeminiResult.noResponse
      ("ab".toList) 1).all (fun c => decide (c.length ≤ 1)) = true :=
  C2_split_or_fallback_bounded false GeminiResult.noResponse
    ("ab".toList) 1 (by decide)

/-- C3: whenever `_split_with_gemini(text, limit)` returns a list, the
concatenation of its elements reproduces `text` exactly and every element
is within `limit`; and it returns `None` (never raising — the embedded
function is total) when no credential is configured, when the call
errors or returns nothing, when the response is not valid JSON, when the
parsed value is not a list of strings, when the concatenation check
fails, or when an element exceeds the limit.  The failure cases other
than the missing credential are stated under `L < text.length` because a
short text returns `[text]` before any request is issued, so no response
exists there. -/
theorem C3_selector_contract (hasKey : Bool) (resp : GeminiResult)
    (text : List Char) (L : Nat) (chunks : List (List Char)) (v : PyJson) :
    (split_with_gemini hasKey resp text L = some chunks →
        chunks.flatten = text ∧
        chunks.all (fun c => decide (c.length ≤ L)) = true)
  ∧ split_with_gemini false resp text L = none
  ∧ (L < text.length →
      split_with_gemini hasKey GeminiResult.noResponse text L = none)
  ∧ (L < text.length →
      split_with_gemini hasKey GeminiResult.badJson text L = none)
  ∧ (L < text.length → asStrings v = none →
      split_with_gemini hasKey (GeminiResult.parsed v) text L = none)
  ∧ (L < text.length → asStrings v = some chunks → chunks.flatten ≠ text →
      split_with_gemini hasKey (GeminiResult.parsed v) text L = none)
  ∧ (L < text.length → asStrings v = some chunks →
      chunks.any (fun c => decide (L < c.length)) = true →
      split_with_gemini hasKey (GeminiResult.parsed v) text L = none) := by
  refine ⟨?_, ?_, ?_, ?_, ?_, ?_, ?_⟩
  · intro h
    have hs := swg_some h
    exact ⟨hs.1, List.all_eq_true.mpr
      (fun c hc => decide_eq_true_eq.mpr (hs.2 c hc))⟩
  · unfold split_with_gemini
    rw [if_pos rfl]
  · intro hlen
    unfold split_with_gemini
    by_cases hk : hasKey = false
    · rw [if_pos hk]
    · rw [if_neg hk, if_neg (show ¬ text.length ≤ L by omega)]
  · intro hlen
    unfold split_with_gemini
    by_cases hk : hasKey = false
    · rw [if_pos hk]
    · rw [if_neg hk, if_neg (show ¬ text.length ≤ L by omega)]
  · intro hlen hv
    unfold split_with_gemini
    by_cases hk : hasKey = false
    · rw [if_pos hk]
    · rw [if_neg hk, if_neg (show ¬ text.length ≤ L by omega)]
      simp only [hv]
  · intro hlen hv hj
    unfold split_with_gemini
    by_cases hk : hasKey = false
    · rw [if_pos hk]
    · rw [if_neg hk, if_neg (show ¬ text.length ≤ L by omega)]
      simp only [hv]
      rw [if_pos hj]
  · intro hlen hv ha
    unfold split_with_gemini
    by_cases hk : hasKey = false
    · rw [if_pos hk]
    · rw [if_neg hk, if_neg (show ¬ text.length ≤ L by omega)]
      simp only [hv]
      by_cases hj : chunks.flatten ≠ text
      · rw [if_pos hj]
      · rw [if_neg hj, if_pos ha]

theorem C3_selector_contract_witness :
    ((["a ".toList, "b".toList] : List (List Char)).flatten =
        "a b".toList
      ∧ (["a ".toList, "b".toList] : List (List Char)).all
          (fun c => decide (c.length ≤ 2)) = true)
  ∧ split_with_gemini false GeminiResult.noResponse ("a b".toList) 2 =
      none
  ∧ split_with_gemini true GeminiResult.noResponse ("a b".toList) 1 =
      none
  ∧ split_with_gemini true GeminiResult.badJson ("a b".toList) 1 =
      none
  ∧ split_with_gemini true (GeminiResult.parsed PyJson.other)
      ("a b".toList) 1 = none
  ∧ split_with_gemini true
      (GeminiResult.parsed (PyJson.arr [PyJson.str ("x".toList)]))
      ("a b".toList) 1 = none
  ∧ split_with_gemini true
      (GeminiResult.parsed (PyJson.arr [PyJson.str ("abcd".toList)]))
      ("abcd".toList) 3 = none := by
  refine ⟨?_, ?_, ?_, ?_, ?_, ?_, ?_⟩
  · exact (C3_selector_contract true
      (GeminiResult.parsed (PyJson.arr
        [PyJson.str ("a ".toList), PyJson.str ("b".toList)]))
      ("a b".toList) 2
      ["a ".toList, "b".toList] PyJson.other).1 (by decide)
  · exact (C3_selector_contract false GeminiResult.noResponse
      ("a b".toList) 2 [] PyJson.other).2.1
  · exact (C3_selector_contract true GeminiResult.noResponse
      ("a b".toList) 1 [] PyJson.other).2.2.1 (by decide)
  · exact (C3_selector_contract true GeminiResult.badJson
      ("a b".toList) 1 [] PyJson.other).2.2.2.1 (by decide)
  · exact (C3_selector_contract true (GeminiResult.parsed PyJson.other)
      ("a b".toList) 1 [] PyJson.other).2.2.2.2.1 (by decide) (by decide)
  · exact (C3_selector_contract true
      (GeminiResult.parsed (PyJson.arr [PyJson.str ("x".toList)]))
      ("a b".toList) 1 ["x".toList]
      (PyJson.arr [PyJson.str ("x".toList)])).2.2.2.2.2.1
      (by decide) (by decide) (by decide)
  · exact (C3_selector_contract true
      (GeminiResult.parsed (PyJson.arr [PyJson.str ("abcd".toList)]))
      ("abcd".toList) 3 ["abcd".toList]
      (PyJson.arr [PyJson.str ("abcd".toList)])).2.2.2.2.2.2
      (by decide) (by decide) (by decide)

/-! ## Claim C6: the break-point cascade

The claim describes the cascade correctly except for the sentence-ender
step, which it glosses as "the rightmost such terminator-plus-space in
the window past 40%".  The source instead tries the three ender patterns
`". "`, `"! "`, `"? "` in that fixed order and commits to the first whose
rightmost occurrence passes the 40% gate, even when a later pattern
occurs further right.  Both readings are defined below in an independent
rightmost-candidate formulation and compared with the source cascade. -/

/-- The candidate cut positions for one pattern as the claim describes
them: the indices at which `pat` occurs in the window, kept only when
they lie past 40% of the window. -/
def breakCandidates (limit : Nat) (chunk pat : List Char) : List Nat :=
  ((List.range (chunk.length + 1)).filter (occursAtIdx chunk pat)).filter
    (fun i => 2 * limit < 5 * i)

/-- Modelled from the claim C6 as stated: the cascade with the
sentence-ender step taking the rightmost occurrence of ANY of the three
terminator-plus-space patterns past 40% of the window. -/
def claimedChunkIdxC6 (limit : Nat) (chunk : List Char) : Nat :=
  match (breakCandidates limit chunk ('\n' :: '\n' :: [])).max? with
  | some i => i + 2
  | none =>
  match (breakCandidates limit chunk ('\n' :: [])).max? with
  | some i => i + 1
  | none =>
  match (breakCandidates limit chunk ('.' :: ' ' :: []) ++
         breakCandidates limit chunk ('!' :: ' ' :: []) ++
         breakCandidates limit chunk ('?' :: ' ' :: [])).max? with
  | some i => i + 2
  | none =>
  match (breakCandidates limit chunk (' ' :: [])).max? with
  | some i => i + 1
  | none => limit

/-- The amended cascade: identical to the claim except that the three
terminator-plus-space patterns are tried in the order `". "`, `"! "`,
`"? "`, the first having an occurrence past 40% of the window winning
with its rightmost occurrence. -/
def amendedChunkIdxC6 (limit : Nat) (chunk : List Char) : Nat :=
  match (breakCandidates limit chunk ('\n' :: '\n' :: [])).max? with
  | some i => i + 2
  | none =>
  match (breakCandidates limit chunk ('\n' :: [])).max? with
  | some i => i + 1
  | none =>
  match (breakCandidates limit chunk ('.' :: ' ' :: [])).max? with
  | some i => i + 2
  | none =>
  match (breakCandidates limit chunk ('!' :: ' ' :: [])).max? with
  | some i => i + 2
  | none =>
  match (breakCandidates limit chunk ('?' :: ' ' :: [])).max? with
  | some i => i + 2
  | none =>
  match (breakCandidates limit chunk (' ' :: [])).max? with
  | some i => i + 1
  | none => limit

lemma max?_append_singleton {l : List Nat} {a : Nat} (h : ∀ x ∈ l, x ≤ a) :
    (l ++ [a]).max? = some a := by
  rw [List.max?_eq_some_iff']
  refine ⟨List.mem_append.mpr (Or.inr (List.mem_singleton.mpr rfl)), ?_⟩
  intro b hb
  rcases List.mem_append.mp hb with hbl | hba
  · exact h b hbl
  · exact le_of_eq (List.mem_singleton.mp hba)

lemma find?_reverse_range (p : Nat → Bool) (m : Nat) :
    List.find? p ((List.range m).reverse) = ((List.range m).filter p).max? := by
  induction m with
  | zero => rfl
  | succ n ih =>
    rw [List.range_succ, List.reverse_append, List.filter_append]
    by_cases hp : p n = true
    · have h1 : List.filter p [n] = [n] := by simp [hp]
      rw [h1, max?_append_singleton
        (fun x hx => le_of_lt (List.mem_range.mp (List.mem_filter.mp hx).1))]
      simp [List.find?_cons, hp]
    · have h1 : List.filter p [n] = [] := by
        simp [List.filter_cons, hp]
      rw [h1, List.append_nil, ← ih]
      simp only [List.reverse_singleton, List.singleton_append,
        List.find?_cons]
      rw [Bool.eq_false_iff.mpr hp]

lemma tryPat_eq_candidates (limit : Nat) (chunk pat : List Char) :
    tryPat limit chunk pat =
      (breakCandidates limit chunk pat).max?.map (fun i => i + pat.length) := by
  unfold tryPat rfindIdx breakCandidates
  rw [find?_reverse_range]
  cases hm : ((List.range (chunk.length + 1)).filter
      (occursAtIdx chunk pat)).max? with
  | none =>
    have h0 : (List.range (chunk.length + 1)).filter
        (occursAtIdx chunk pat) = [] := List.max?_eq_none_iff.mp hm
    rw [h0]
    rfl
  | some m =>
    rcases List.max?_eq_some_iff'.mp hm with ⟨hmem, hmax⟩
    show (if 2 * limit < 5 * m then some (m + pat.length) else none) = _
    by_cases hg : 2 * limit < 5 * m
    · rw [if_pos hg]
      have hsome : (((List.range (chunk.length + 1)).filter
          (occursAtIdx chunk pat)).filter
            (fun i => decide (2 * limit < 5 * i))).max? = some m := by
        rw [List.max?_eq_some_iff']
        refine ⟨List.mem_filter.mpr ⟨hmem, decide_eq_true_eq.mpr hg⟩, ?_⟩
        intro b hb
        exact hmax b (List.mem_filter.mp hb).1
      rw [hsome]
      rfl
    · rw [if_neg hg]
      have hnil : ((List.range (chunk.length + 1)).filter
          (occursAtIdx chunk pat)).filter
            (fun i => decide (2 * limit < 5 * i)) = [] := by
        rw [List.filter_eq_nil_iff]
        intro a ha
        have := hmax a ha
        simp only [decide_eq_true_eq]
        omega
      rw [hnil]
      rfl

/-- C6 counterexample: on the window `"aaaaa. b! "` with limit 10, the
rightmost terminator-plus-space past 40% of the window is the `"! "` at
index 8, so the claim as stated prescribes the cut 10; the source tries
`". "` first and cuts at 5 + 2 = 7, and the full splitter's output on
`"aaaaa. b! XYZ"` shows the divergent behaviour. -/
theorem C6_counterexample :
    splitChunkIdx 10 ("aaaaa. b! ".toList) = 7
  ∧ claimedChunkIdxC6 10 ("aaaaa. b! ".toList) = 10
  ∧ splitChunkIdx 10 ("aaaaa. b! ".toList) ≠
      claimedChunkIdxC6 10 ("aaaaa. b! ".toList)
  ∧ split_for_telegram_raw ("aaaaa. b! XYZ".toList) 10 =
      ["aaaaa.".toList, "b! XYZ".toList] := by
  refine ⟨by decide, by decide, by decide, by decide⟩

/-- C6 (amended): on every window the splitter's cut is chosen by the
cascade — double line break, else single line break, else the first of
the terminator patterns `". "`, `"! "`, `"? "` (in that order) having an
occurrence past 40% of the window, at its rightmost such occurrence,
else the last plain space past 40%, else a hard cut exactly at the
limit — each non-terminator step likewise taking the rightmost candidate
past 40% of the window. -/
theorem C6_cut_cascade (limit : Nat) (chunk : List Char) :
    splitChunkIdx limit chunk = amendedChunkIdxC6 limit chunk := by
  unfold splitChunkIdx amendedChunkIdxC6
  rw [tryPat_eq_candidates, tryPat_eq_candidates, tryPat_eq_candidates,
    tryPat_eq_candidates, tryPat_eq_candidates, tryPat_eq_candidates]
  cases (breakCandidates limit chunk ('\n' :: '\n' :: [])).max? with
  | some i => rfl
  | none =>
  cases (breakCandidates limit chunk ('\n' :: [])).max? with
  | some i => rfl
  | none =>
  cases (breakCandidates limit chunk ('.' :: ' ' :: [])).max? with
  | some i => rfl
  | none =>
  cases (breakCandidates limit chunk ('!' :: ' ' :: [])).max? with
  | some i => rfl
  | none =>
  cases (breakCandidates limit chunk ('?' :: ' ' :: [])).max? with
  | some i => rfl
  | none =>
  cases (breakCandidates limit chunk (' ' :: [])).max? with
  | some i => rfl
  | none => rfl

/-! ## Lemmas about the send functions -/

lemma flatten_map_singleton {α β : Type} (f : α → β) (l : List α) :
    (l.map (fun a => [f a])).flatten = l.map f := by
  induction l with
  | nil => rfl
  | cons a t ih => simp [ih]

/-- A chunk that already fits the message budget is sent as a single
untagged message: the splitter short-circuits before consulting the
selector, and `post_type=None` is falsy. -/
lemma message_short {hasKey : Bool} {resp : GeminiResult} {c : List Char}
    (h : c.length ≤ TEXT_SPLIT_LIMIT) :
    send_telegram_message_html hasKey resp c none =
      [render_html_with_basic_md c] := by
  unfold send_telegram_message_html split_text_with_gemini_or_fallback
  rw [if_pos h]
  simp [pyTruthy]

lemma sofb_headD_le {hasKey : Bool} {resp : GeminiResult} {text : List Char}
    {L : Nat} :
    ((split_text_with_gemini_or_fallback hasKey resp text L).headD
      []).length ≤ L := by
  cases hc : split_text_with_gemini_or_fallback hasKey resp text L with
  | nil => simp
  | cons a t =>
    have hmem : a ∈ split_text_with_gemini_or_fallback hasKey resp text L := by
      rw [hc]
      exact List.mem_cons_self a t
    simpa using sofb_all_le a hmem

/-- The follow-up messages of `send_photo_to_telegram_channel` are the
renders of the tail chunks, each sent whole and untagged: every tail
chunk is within `CAPTION_SPLIT_LIMIT ≤ TEXT_SPLIT_LIMIT`, so its re-send
through `send_telegram_message_html` with `post_type=None` is a single
render with no tag. -/
lemma photo_tail_renders (hasKey : Bool) (resp : GeminiResult)
    (caption : List Char) (pt : Option (List Char)) :
    (send_photo_to_telegram_channel hasKey resp caption pt).2 =
      ((split_text_with_gemini_or_fallback hasKey resp caption
          CAPTION_SPLIT_LIMIT).tail).map render_html_with_basic_md := by
  unfold send_photo_to_telegram_channel
  simp only []
  have hle : ∀ c ∈ (split_text_with_gemini_or_fallback hasKey resp caption
      CAPTION_SPLIT_LIMIT).tail,
      send_telegram_message_html hasKey resp c none =
        [render_html_with_basic_md c] := by
    intro c hc
    have hmem : c ∈ split_text_with_gemini_or_fallback hasKey resp caption
        CAPTION_SPLIT_LIMIT := (List.tail_sublist _).subset hc
    exact message_short (le_trans (sofb_all_le c hmem) (by decide))
  rw [List.map_congr_left hle, flatten_map_singleton]

/-- The caption text of `send_photo_to_telegram_channel` is the render of
the first chunk, untruncated (the hard-limit guard is false because the
chunk is within `CAPTION_SPLIT_LIMIT < CAPTION_LIMIT`), with the type
tag prepended exactly when `post_type` is truthy. -/
lemma photo_caption_head (hasKey : Bool) (resp : GeminiResult)
    (caption : List Char) (pt : Option (List Char)) :
    (send_photo_to_telegram_channel hasKey resp caption pt).1 =
      (if pyTruthy pt then
        typeTag (pt.getD []) ++ render_html_with_basic_md
          ((split_text_with_gemini_or_fallback hasKey resp caption
            CAPTION_SPLIT_LIMIT).headD [])
      else render_html_with_basic_md
          ((split_text_with_gemini_or_fallback hasKey resp caption
            CAPTION_SPLIT_LIMIT).headD [])) := by
  have hguard : ¬(CAPTION_LIMIT <
      ((split_text_with_gemini_or_fallback hasKey resp caption
        CAPTION_SPLIT_LIMIT).headD []).length) := by
    have h1 := @sofb_headD_le hasKey resp caption CAPTION_SPLIT_LIMIT
    have h2 : CAPTION_SPLIT_LIMIT < CAPTION_LIMIT := by decide
    omega
  unfold send_photo_to_telegram_channel
  simp only []
  rw [if_neg hguard]

/-! ## Claims C4, C8, C9, C10 -/

/-- C4: when a category label is supplied (a non-empty `post_type`
string, per Python truthiness), the tag `"[" + <b> + escaped label +
</b> + "]"` followed by a blank line is prefixed to the first rendered
segment and only the first — `send_telegram_message_html` adds it
exactly at 1-based index 1 — and the caption tail segments re-sent by
`send_photo_to_telegram_channel` go through `post_type=None`, so the tag
never appears in them. -/
theorem C4_category_tag_first_only (hasKey : Bool) (resp : GeminiResult)
    (text caption pt : List Char) (hpt : pt ≠ []) :
    send_telegram_message_html hasKey resp text (some pt) =
      (split_text_with_gemini_or_fallback hasKey resp text
        TEXT_SPLIT_LIMIT).enum.map
        (fun ic =>
          if ic.1 = 0 then
            typeTag pt ++ render_html_with_basic_md ic.2
          else render_html_with_basic_md ic.2)
  ∧ (send_photo_to_telegram_channel hasKey resp caption (some pt)).2 =
      ((split_text_with_gemini_or_fallback hasKey resp caption
          CAPTION_SPLIT_LIMIT).tail).map render_html_with_basic_md := by
  constructor
  · unfold send_telegram_message_html
    apply List.map_congr_left
    intro ic _
    have hp : pyTruthy (some pt) = true := by
      simp [pyTruthy, hpt]
    by_cases h0 : ic.1 = 0
    · simp [hp, h0]
    · have hb : (ic.1 + 1 == 1) = false :=
        beq_eq_false_iff_ne.mpr (by omega)
      simp [hp, hb, h0]
  · exact photo_tail_renders hasKey resp caption (some pt)

theorem C4_category_tag_first_only_witness :
    send_telegram_message_html false GeminiResult.noResponse
      ("hi".toList) (some ("X".toList)) =
      (split_text_with_gemini_or_fallback false GeminiResult.noResponse
        ("hi".toList) TEXT_SPLIT_LIMIT).enum.map
        (fun ic =>
          if ic.1 = 0 then
            typeTag ("X".toList) ++ render_html_with_basic_md ic.2
          else render_html_with_basic_md ic.2)
  ∧ (send_photo_to_telegram_channel false GeminiResult.noResponse
      ("ab".toList) (some ("X".toList))).2 =
      ((split_text_with_gemini_or_fallback false GeminiResult.noResponse
          ("ab".toList) CAPTION_SPLIT_LIMIT).tail).map
        render_html_with_basic_md :=
  C4_category_tag_first_only false GeminiResult.noResponse
    ("hi".toList) ("ab".toList) ("X".toList) (by decide)

/-- C8: the renderer is total (the embedded function is defined on every
string and never raises) and realises the documented examples:
`render("")` is empty, text is HTML-escaped, links, bold and italic
tokens are rendered, and an unmatched delimiter such as `"*hi"` falls
through as escaped literal text. -/
theorem C8_render_examples :
    render_html_with_basic_md [] = []
  ∧ render_html_with_basic_md ("A < B".toList) =
      "A &lt; B".toList
  ∧ render_html_with_basic_md ("[go](https://x.com)".toList) =
      ("<a href=\"https://x.com\">go</a>").toList
  ∧ render_html_with_basic_md ("**hi**".toList) =
      "<b>hi</b>".toList
  ∧ render_html_with_basic_md ("*hi*".toList) =
      "<i>hi</i>".toList
  ∧ render_html_with_basic_md ("*hi".toList) = "*hi".toList :=
  ⟨rfl, by decide, by decide, by decide, by decide, by decide⟩

/-- The 1100-character break-free caption of the C9 example. -/
def captionC9 : List Char := List.replicate 1100 'a'

/-- C9: a caption of length 1100 with no internal break points yields a
head segment of length at most the hard caption limit 1024 (in fact at
most the effective 974), and at least one tail segment carried over to
the message surface, sent untagged — for every selector oracle outcome:
a valid selector split of 1100 characters into chunks of at most 974
necessarily has a tail, and so does the heuristic fallback. -/
theorem C9_caption_overflow_tail (hasKey : Bool) (resp : GeminiResult) :
    ((split_text_with_gemini_or_fallback hasKey resp captionC9
        CAPTION_SPLIT_LIMIT).headD []).length ≤ CAPTION_LIMIT
  ∧ (split_text_with_gemini_or_fallback hasKey resp captionC9
        CAPTION_SPLIT_LIMIT).tail ≠ []
  ∧ (send_photo_to_telegram_channel hasKey resp captionC9
        (some ("X".toList))).2 =
      ((split_text_with_gemini_or_fallback hasKey resp captionC9
          CAPTION_SPLIT_LIMIT).tail).map render_html_with_basic_md := by
  refine ⟨le_trans sofb_headD_le (by decide), ?_,
    photo_tail_renders hasKey resp captionC9 (some ("X".toList))⟩
  intro htail
  have hne := @sofb_ne_nil hasKey resp captionC9 CAPTION_SPLIT_LIMIT
  cases hc : split_text_with_gemini_or_fallback hasKey resp captionC9
      CAPTION_SPLIT_LIMIT with
  | nil => exact hne hc
  | cons a t =>
    rw [hc] at htail
    simp at htail
    subst htail
    have hfil := @sofb_flatten_filter hasKey resp captionC9 CAPTION_SPLIT_LIMIT
      (by decide)
    rw [hc] at hfil
    have hcap : captionC9.filter notSpace = captionC9 := by
      rw [List.filter_eq_self]
      intro x hx
      have hx' := List.eq_of_mem_replicate hx
      subst hx'
      decide
    rw [hcap] at hfil
    have hlen : a.length ≤ CAPTION_SPLIT_LIMIT := by
      apply sofb_all_le a
      rw [hc]
      exact List.mem_cons_self a []
    have h1 := congrArg List.length hfil
    simp only [List.flatten_cons, List.flatten_nil, List.append_nil] at h1
    have h2 := List.length_filter_le notSpace a
    have h3 : captionC9.length = 1100 :=
      show (List.replicate 1100 'a').length = 1100 from
        List.length_replicate 1100 'a'
    have h4 : CAPTION_SPLIT_LIMIT = 974 := by decide
    omega

theorem C9_caption_overflow_tail_witness :
    ((split_text_with_gemini_or_fallback false GeminiResult.noResponse
        captionC9 CAPTION_SPLIT_LIMIT).headD []).length ≤ CAPTION_LIMIT
  ∧ (split_text_with_gemini_or_fallback false GeminiResult.noResponse
        captionC9 CAPTION_SPLIT_LIMIT).tail ≠ []
  ∧ (send_photo_to_telegram_channel false GeminiResult.noResponse captionC9
        (some ("X".toList))).2 =
      ((split_text_with_gemini_or_fallback false GeminiResult.noResponse
          captionC9 CAPTION_SPLIT_LIMIT).tail).map render_html_with_basic_md :=
  C9_caption_overflow_tail false GeminiResult.noResponse

/-- C10: every chunk produced by
`split_text_with_gemini_or_fallback(text, CAPTION_SPLIT_LIMIT)` has
length at most 974 < 1024, so the defensive truncation branch of
`send_photo_to_telegram_channel` guarded by
`len(head_raw) > CAPTION_LIMIT` is unreachable, and the caption head
passed to the renderer is always exactly the first chunk, untruncated. -/
theorem C10_caption_truncation_unreachable (hasKey : Bool)
    (resp : GeminiResult) (caption : List Char) (pt : Option (List Char)) :
    ((split_text_with_gemini_or_fallback hasKey resp caption
        CAPTION_SPLIT_LIMIT).headD []).length ≤ CAPTION_SPLIT_LIMIT
  ∧ ¬(CAPTION_LIMIT <
      ((split_text_with_gemini_or_fallback hasKey resp caption
        CAPTION_SPLIT_LIMIT).headD []).length)
  ∧ (send_photo_to_telegram_channel hasKey resp caption pt).1 =
      (if pyTruthy pt then
        typeTag (pt.getD []) ++ render_html_with_basic_md
          ((split_text_with_gemini_or_fallback hasKey resp caption
            CAPTION_SPLIT_LIMIT).headD [])
      else render_html_with_basic_md
          ((split_text_with_gemini_or_fallback hasKey resp caption
            CAPTION_SPLIT_LIMIT).headD [])) := by
  refine ⟨sofb_headD_le, ?_, photo_caption_head hasKey resp caption pt⟩
  have h1 := @sofb_headD_le hasKey resp caption CAPTION_SPLIT_LIMIT
  have h2 : CAPTION_SPLIT_LIMIT < CAPTION_LIMIT := by decide
  omega

theorem C10_caption_truncation_unreachable_witness :
    ((split_text_with_gemini_or_fallback false GeminiResult.noResponse
        ("ab".toList) CAPTION_SPLIT_LIMIT).headD []).length ≤
      CAPTION_SPLIT_LIMIT
  ∧ ¬(CAPTION_LIMIT <
      ((split_text_with_gemini_or_fallback false GeminiResult.noResponse
        ("ab".toList) CAPTION_SPLIT_LIMIT).headD []).length)
  ∧ (send_photo_to_telegram_channel false GeminiResult.noResponse
      ("ab".toList) none).1 =
      (if pyTruthy none then
        typeTag (Option.getD none []) ++ render_html_with_basic_md
          ((split_text_with_gemini_or_fallback false GeminiResult.noResponse
            ("ab".toList) CAPTION_SPLIT_LIMIT).headD [])
      else render_html_with_basic_md
          ((split_text_with_gemini_or_fallback false GeminiResult.noResponse
            ("ab".toList) CAPTION_SPLIT_LIMIT).headD [])) :=
  C10_caption_truncation_unreachable false GeminiResult.noResponse
    ("ab".toList) none

end TelegramSender
